import Mathlib

/-!
Verification of the Turnus Planner backend (src/main.py, src/schemas.py):
a shallow embedding of the schedule-generation endpoint, the preference
keyword matcher, and the Python `datetime.date` calendar arithmetic the
code relies on, together with theorems settling the specified properties.
-/

/-! ## Calendar arithmetic (Python `datetime.date` semantics)

`generate_schedule` computes the month length via
`start = date(y, m, 1)`, `next_month = (start.replace(day=28) + timedelta(days=4)).replace(day=1)`,
`days = (next_month - start).days`.  We embed Python's proleptic-Gregorian
ordinal functions `_ymd2ord` and `_ord2ymd` (CPython `datetime.py`). -/

/-- Python `_is_leap`: `year % 4 == 0 and (year % 100 != 0 or year % 400 == 0)`. -/
def isLeap (y : Nat) : Bool :=
  y % 4 == 0 && (y % 100 != 0 || y % 400 == 0)

/-- Python `_DAYS_IN_MONTH` (1-based, without the leading sentinel). -/
def daysInMonthList : List Nat := [31, 28, 31, 30, 31, 30, 31, 31, 30, 31, 30, 31]

/-- Python `_DAYS_BEFORE_MONTH` (1-based, without the leading sentinel). -/
def daysBeforeMonthList : List Nat :=
  [0, 31, 59, 90, 120, 151, 181, 212, 243, 273, 304, 334]

/-- Python `_days_before_year`: days before January 1st of `y`. -/
def daysBeforeYear (y : Nat) : Nat :=
  let x := y - 1
  x * 365 + x / 4 - x / 100 + x / 400

/-- Python `_days_before_month`. -/
def daysBeforeMonth (y m : Nat) : Nat :=
  daysBeforeMonthList.getD (m - 1) 0 + (if 2 < m ∧ isLeap y then 1 else 0)

/-- Python `_ymd2ord`: proleptic Gregorian ordinal, with 0001-01-01 as day 1. -/
def toOrdinal (y m d : Nat) : Nat :=
  daysBeforeYear y + daysBeforeMonth y m + d

/-- The body of Python `_ord2ymd` after the first `divmod(n, _DI400Y)`:
`q` is the number of complete 400-year cycles, `r` the remaining days. -/
def ord2ymdAux (q r : Nat) : Nat × Nat × Nat :=
  let n100 := r / 36524
  let r2 := r % 36524
  let n4 := r2 / 1461
  let r3 := r2 % 1461
  let n1 := r3 / 365
  let r4 := r3 % 365
  let year := q * 400 + n100 * 100 + n4 * 4 + n1 + 1
  if n1 == 4 || n100 == 4 then
    (year - 1, 12, 31)
  else
    let leapyear := n1 == 3 && (n4 != 24 || n100 == 3)
    let month := (r4 + 50) / 32
    let preceding := daysBeforeMonthList.getD (month - 1) 0 +
      (if 2 < month ∧ leapyear then 1 else 0)
    if r4 < preceding then
      let month2 := month - 1
      let preceding2 := preceding - (daysInMonthList.getD (month2 - 1) 0 +
        (if month2 == 2 ∧ leapyear then 1 else 0))
      (year, month2, r4 - preceding2 + 1)
    else
      (year, month, r4 - preceding + 1)

/-- Python `_ord2ymd`: inverse of `toOrdinal` on valid dates. -/
def fromOrdinal (n : Nat) : Nat × Nat × Nat :=
  ord2ymdAux ((n - 1) / 146097) ((n - 1) % 146097)

/-- The month-length computation of `generate_schedule` (src/main.py lines 130-132):
ordinal of `date(y, m, 28) + timedelta(days=4)` converted back to a date,
truncated to day 1, minus the ordinal of `date(y, m, 1)`. -/
def daysInMonthPy (y m : Nat) : Nat :=
  let startOrd := toOrdinal y m 1
  let p := fromOrdinal (toOrdinal y m 28 + 4)
  toOrdinal p.1 p.2.1 1 - startOrd

/-- Stated from the spec's words: the calendar-correct day count of a month
("28/29/30/31, including February in leap vs. non-leap years"). -/
def monthLenSpec (y m : Nat) : Nat :=
  if m = 2 then (if isLeap y then 29 else 28)
  else if m = 4 ∨ m = 6 ∨ m = 9 ∨ m = 11 then 30 else 31

/-! ### The month-length computation is calendar-correct (400-year periodicity) -/

theorem isLeap_add_400 (y : Nat) : isLeap (y + 400) = isLeap y := by
  simp only [isLeap]
  have h4 : (y + 400) % 4 = y % 4 := by omega
  have h100 : (y + 400) % 100 = y % 100 := by omega
  have h400 : (y + 400) % 400 = y % 400 := by omega
  rw [h4, h100, h400]

theorem daysBeforeYear_add_400 (y : Nat) (hy : 1 ≤ y) :
    daysBeforeYear (y + 400) = daysBeforeYear y + 146097 := by
  simp only [daysBeforeYear]
  omega

theorem daysBeforeMonth_add_400 (y m : Nat) :
    daysBeforeMonth (y + 400) m = daysBeforeMonth y m := by
  simp only [daysBeforeMonth, isLeap_add_400]

theorem toOrdinal_add_400 (y m d : Nat) (hy : 1 ≤ y) :
    toOrdinal (y + 400) m d = toOrdinal y m d + 146097 := by
  simp only [toOrdinal, daysBeforeYear_add_400 y hy, daysBeforeMonth_add_400]
  omega

theorem ord2ymdAux_succ (q r : Nat) :
    ord2ymdAux (q + 1) r = ((ord2ymdAux q r).1 + 400, (ord2ymdAux q r).2) := by
  simp only [ord2ymdAux]
  repeat' split
  all_goals try dsimp only
  all_goals simp only [Prod.mk.injEq, and_true]
  all_goals omega

theorem ord2ymdAux_fst_pos (q r : Nat) : 1 ≤ (ord2ymdAux q r).1 := by
  simp only [ord2ymdAux]
  split
  · rename_i h
    simp only [Bool.or_eq_true, beq_iff_eq] at h
    dsimp only
    omega
  · repeat' split
    all_goals try dsimp only
    all_goals omega

theorem fromOrdinal_fst_pos (n : Nat) : 1 ≤ (fromOrdinal n).1 := by
  simp only [fromOrdinal]
  exact ord2ymdAux_fst_pos _ _

theorem fromOrdinal_add_cycle (n : Nat) (hn : 1 ≤ n) :
    fromOrdinal (n + 146097) = ((fromOrdinal n).1 + 400, (fromOrdinal n).2) := by
  simp only [fromOrdinal]
  have h1 : (n + 146097 - 1) / 146097 = (n - 1) / 146097 + 1 := by omega
  have h2 : (n + 146097 - 1) % 146097 = (n - 1) % 146097 := by omega
  rw [h1, h2, ord2ymdAux_succ]

theorem daysInMonthPy_add_400 (y m : Nat) (hy : 1 ≤ y) :
    daysInMonthPy (y + 400) m = daysInMonthPy y m := by
  simp only [daysInMonthPy]
  rw [toOrdinal_add_400 y m 1 hy, toOrdinal_add_400 y m 28 hy,
    show toOrdinal y m 28 + 146097 + 4 = toOrdinal y m 28 + 4 + 146097 by omega,
    fromOrdinal_add_cycle _ (by omega)]
  dsimp only
  rw [toOrdinal_add_400 _ _ _ (fromOrdinal_fst_pos (toOrdinal y m 28 + 4))]
  omega

theorem monthLenSpec_add_400 (y m : Nat) :
    monthLenSpec (y + 400) m = monthLenSpec y m := by
  simp only [monthLenSpec, isLeap_add_400]

set_option maxRecDepth 10000 in
theorem daysInMonthPy_base_400 :
    ∀ y < 400, ∀ m < 12, daysInMonthPy (y + 1) (m + 1) = monthLenSpec (y + 1) (m + 1) := by
  decide

theorem daysInMonthPy_eq_spec (y m : Nat) (hy : 1 ≤ y) (hm1 : 1 ≤ m) (hm2 : m ≤ 12) :
    daysInMonthPy y m = monthLenSpec y m := by
  obtain ⟨q, r, hr1, hr2, rfl⟩ : ∃ q r, 1 ≤ r ∧ r ≤ 400 ∧ y = r + 400 * q :=
    ⟨(y - 1) / 400, (y - 1) % 400 + 1, by omega, by omega, by omega⟩
  clear hy
  induction q with
  | zero =>
    have h := daysInMonthPy_base_400 (r - 1) (by omega) (m - 1) (by omega)
    rw [show r - 1 + 1 = r by omega, show m - 1 + 1 = m by omega] at h
    simpa using h
  | succ q ih =>
    rw [show r + 400 * (q + 1) = r + 400 * q + 400 by ring,
      daysInMonthPy_add_400 _ _ (by omega), monthLenSpec_add_400]
    exact ih

/-! ## Data model (src/schemas.py) and shift generation (src/main.py) -/

/-- `ShiftType = Literal["D", "E", "N", "OFF"]` (Day, Evening, Night, Off). -/
inductive Shift
  | D
  | E
  | N
  | OFF
  deriving DecidableEq

/-- Employee record (src/schemas.py): the fields consulted or carried by the
scheduling endpoint.  `id` stands for `str(emp["_id"])`; `hard_rules` is the
rule dictionary, modelled as an association list of boolean flags. -/
structure Employee where
  id : String
  hard_rules : List (String × Bool)
  soft_preferences : List (String × ℚ)
  absences : List (Nat × Nat)
  contract_percentage : Nat
  deriving DecidableEq

def defaultEmployee : Employee := ⟨"", [], [], [], 0⟩

/-- Python `emp.get("hard_rules", {}).get(k)` used as a truth value. -/
def getRule (rules : List (String × Bool)) (k : String) : Bool :=
  (rules.lookup k).getD false

/-- One element of the `assignments` list: `{"date": d.isoformat(), "employee_id":
str(emp["_id"]), "shift": shift}`, with the date kept as its Gregorian ordinal
(`isoformat` is injective on dates, so nothing is lost). -/
structure DailyAssignment where
  dateOrd : Nat
  employee_id : String
  shift : Shift
  deriving DecidableEq

def noAssign : DailyAssignment := ⟨0, "", Shift.OFF⟩

/-- Python `d.weekday()`: `0` Monday … `6` Sunday, computed from the ordinal. -/
def weekdayOf (ord : Nat) : Nat :=
  (ord + 6) % 7

/-- `rotation = ["D", "E", "N"]` (src/main.py line 148). -/
def rotationTable : List Shift := [Shift.D, Shift.E, Shift.N]

/-- The two rule overrides applied to a selected base shift
(src/main.py lines 146-154): `no_night` turns Night into Day, and on a Friday
`no_after_16_friday` turns Evening or Night into Day. -/
def applyOverrides (emp : Employee) (weekday : Nat) (base : Shift) : Shift :=
  let s := if getRule emp.hard_rules "no_night" = true ∧ base = Shift.N then Shift.D else base
  if getRule emp.hard_rules "no_after_16_friday" = true ∧ weekday = 4 ∧
      (s = Shift.E ∨ s = Shift.N) then Shift.D
  else s

/-- The shift assigned to the employee at list position `idx` on day offset
`day_offset` (src/main.py lines 141-154). -/
def assignShift (emp : Employee) (weekday day_offset idx : Nat) : Shift :=
  if (day_offset + idx) % 7 = 6 then Shift.OFF
  else applyOverrides emp weekday (rotationTable.getD ((day_offset + idx) % 3) Shift.D)

/-- The pure computation of the `/api/schedule/generate` handler
(src/main.py lines 122-160): empty employee list fails with
`HTTPException(400, "No employees in department")`; otherwise one assignment
per (day, employee), days outermost, employees in list order. -/
def generate_schedule (employees : List Employee) (year month : Nat) :
    Except (Nat × String) (List DailyAssignment) :=
  if employees.isEmpty then
    .error (400, "No employees in department")
  else
    let start := toOrdinal year month 1
    let days := daysInMonthPy year month
    .ok ((List.range days).flatMap (fun day_offset =>
      let d := start + day_offset
      let weekday := weekdayOf d
      employees.enum.map (fun p =>
        { dateOrd := d
          employee_id := p.2.id
          shift := assignShift p.2 weekday day_offset p.1 })))

/-- The schedule document inserted into `db.schedule` (src/main.py lines 162-169);
`created_at` stands for `datetime.utcnow()`, supplied as a parameter `now`. -/
structure ScheduleDoc where
  department_id : String
  year : Nat
  month : Nat
  assignments : List DailyAssignment
  created_at : Nat
  deriving DecidableEq

/-- The handler including its side effect on the schedule collection:
on success the assignment list is both inserted as a new document and
returned; on error the store is left unchanged. -/
def generate_endpoint (store : List ScheduleDoc) (now : Nat) (department_id : String)
    (employees : List Employee) (year month : Nat) :
    List ScheduleDoc × Except (Nat × String) (List DailyAssignment) :=
  match generate_schedule employees year month with
  | .error e => (store, .error e)
  | .ok assignments =>
      (store ++ [{ department_id := department_id
                   year := year
                   month := month
                   assignments := assignments
                   created_at := now }],
       .ok assignments)

/-! ### Structure of the generated assignment list -/

theorem length_flatMap_const {β : Type} (D : Nat) (f : Nat → List β) (E : Nat)
    (hf : ∀ j, (f j).length = E) :
    ((List.range D).flatMap f).length = D * E := by
  induction D with
  | zero => simp
  | succ D ih =>
    rw [List.range_succ, List.flatMap_append]
    simp only [List.length_append, ih, List.flatMap_cons, List.flatMap_nil,
      List.append_nil, hf D, Nat.succ_mul]

theorem getD_flatMap_range {β : Type} (D : Nat) (f : Nat → List β) (E : Nat) (d : β)
    (hf : ∀ j, (f j).length = E) (i idx : Nat) (hi : i < D) (hidx : idx < E) :
    ((List.range D).flatMap f).getD (i * E + idx) d = (f i).getD idx d := by
  induction D with
  | zero => omega
  | succ D ih =>
    rw [List.range_succ, List.flatMap_append]
    by_cases h : i < D
    · rw [List.getD_append]
      · exact ih h
      · rw [length_flatMap_const D f E hf]
        calc i * E + idx < i * E + E := by omega
          _ = (i + 1) * E := by ring
          _ ≤ D * E := Nat.mul_le_mul_right E (by omega)
    · have hiD : i = D := by omega
      rw [hiD]
      rw [List.getD_append_right]
      · rw [length_flatMap_const D f E hf,
          show D * E + idx - D * E = idx by omega]
        simp only [List.flatMap_cons, List.flatMap_nil, List.append_nil]
      · rw [length_flatMap_const D f E hf]
        omega

theorem generate_schedule_length (emps : List Employee) (y m : Nat)
    (l : List DailyAssignment) (hl : generate_schedule emps y m = .ok l) :
    l.length = daysInMonthPy y m * emps.length := by
  unfold generate_schedule at hl
  split at hl
  · cases hl
  · cases hl
    exact length_flatMap_const _ _ _ (fun j => by simp [List.enum_length])

theorem generate_schedule_getD (emps : List Employee) (y m : Nat)
    (l : List DailyAssignment) (hl : generate_schedule emps y m = .ok l)
    (i idx : Nat) (hi : i < daysInMonthPy y m) (hidx : idx < emps.length) :
    l.getD (i * emps.length + idx) noAssign =
      { dateOrd := toOrdinal y m 1 + i
        employee_id := (emps.getD idx defaultEmployee).id
        shift := assignShift (emps.getD idx defaultEmployee)
          (weekdayOf (toOrdinal y m 1 + i)) i idx } := by
  unfold generate_schedule at hl
  split at hl
  · cases hl
  · cases hl
    rw [getD_flatMap_range _ _ emps.length _ (fun j => by simp [List.enum_length]) i idx hi hidx]
    have hidx2 : idx < (List.map (fun p : Nat × Employee =>
        ({ dateOrd := toOrdinal y m 1 + i
           employee_id := p.2.id
           shift := assignShift p.2 (weekdayOf (toOrdinal y m 1 + i)) i p.1 } :
          DailyAssignment)) emps.enum).length := by
      simp [List.enum_length, hidx]
    rw [List.getD_eq_getElem _ _ hidx2, List.getElem_map, List.getElem_enum,
      List.getD_eq_getElem _ _ hidx]

/-! ## Preference interpretation (src/main.py lines 101-114) -/

/-- Whether the pattern (first list) is an initial segment of the second list. -/
def charsLead : List Char → List Char → Bool
  | [], _ => true
  | _ :: _, [] => false
  | p :: ps, h :: hs => p == h && charsLead ps hs

/-- Python `pat in hay` on strings: `pat` occurs contiguously in `hay`. -/
def charsContain : List Char → List Char → Bool
  | [], pat => charsLead pat []
  | h :: hs, pat => charsLead pat (h :: hs) || charsContain hs pat

def strContains (hay pat : String) : Bool :=
  charsContain hay.data pat.data

/-- Result of `/api/ai/interpret` (src/schemas.py `PreferenceInterpretation`). -/
structure PreferenceInterpretation where
  hard_rules : List (String × Bool)
  soft_preferences : List (String × ℚ)
  deriving DecidableEq

/-- `interpret_preferences` (src/main.py lines 101-114): lower-case the text and
match a fixed substring table, collecting dictionary entries in program order. -/
def interpret_preferences (text : String) : PreferenceInterpretation :=
  let t := text.toLower
  let hard1 : List (String × Bool) :=
    if strContains t "never night" || strContains t "avoid night" || strContains t "ikke natt"
    then [("no_night", true)] else []
  let soft1 : List (String × ℚ) :=
    if strContains t "prefer day" || strContains t "day shifts" || strContains t "dagvakt"
    then [("prefer_day", 1)] else []
  let soft2 : List (String × ℚ) :=
    if strContains t "prefer evening" || strContains t "kveld"
    then soft1 ++ [("prefer_evening", 1)] else soft1
  let hard2 : List (String × Bool) :=
    if strContains t "cannot work after 16" || strContains t "ikke etter 16"
    then hard1 ++ [("no_after_16_friday", true)] else hard1
  ⟨hard2, soft2⟩

/-! ### Facts about the rule overrides -/

theorem applyOverrides_ne_off (emp : Employee) (w : Nat) (b : Shift) (hb : b ≠ Shift.OFF) :
    applyOverrides emp w b ≠ Shift.OFF := by
  simp only [applyOverrides]
  split_ifs <;> first | decide | exact hb

theorem applyOverrides_ne_night (emp : Employee) (w : Nat) (b : Shift)
    (hr : getRule emp.hard_rules "no_night" = true) :
    applyOverrides emp w b ≠ Shift.N := by
  simp only [applyOverrides]
  split_ifs with h1 h2 h3
  · decide
  · decide
  · decide
  · simp only [hr, true_and] at h1
    exact h1

theorem applyOverrides_friday (emp : Employee) (w : Nat) (b : Shift)
    (hr : getRule emp.hard_rules "no_after_16_friday" = true) (hw : w = 4) :
    applyOverrides emp w b ≠ Shift.E ∧ applyOverrides emp w b ≠ Shift.N := by
  simp only [applyOverrides]
  split_ifs with h1 h2 h3
  · decide
  · decide
  · decide
  · simp only [hr, hw, eq_self_iff_true, true_and, not_or] at h3
    exact h3

theorem rotationTable_getD_mod_ne_off (k : Nat) :
    rotationTable.getD (k % 3) Shift.D ≠ Shift.OFF := by
  have h : k % 3 = 0 ∨ k % 3 = 1 ∨ k % 3 = 2 := by omega
  rcases h with h | h | h <;> rw [h] <;> decide

/-! ## Concrete data used in example instantiations -/

def empA : Employee := ⟨"a", [], [], [], 100⟩

def empNN : Employee := ⟨"b", [("no_night", true)], [], [], 100⟩

def empFri : Employee := ⟨"c", [("no_after_16_friday", true)], [], [], 100⟩

def empA2 : Employee := ⟨"a", [], [("prefer_day", 1)], [(5, 9)], 50⟩

def demoList1 : List DailyAssignment := (generate_schedule [empA] 2023 5).toOption.getD []

def demoList3 : List DailyAssignment := (generate_schedule [empNN] 2024 2).toOption.getD []

def demoList4 : List DailyAssignment := (generate_schedule [empFri] 2024 3).toOption.getD []

def demoList5 : List DailyAssignment :=
  (generate_schedule [empA, empFri] 2024 3).toOption.getD []

/-! ## The claims -/

/-- C1: in every generated schedule, the entry for day offset `i` and employee
position `idx` is Off exactly when `(i + idx) % 7 = 6`; otherwise it equals the
fixed rotation `[D, E, N]` indexed at `(i + idx) % 3` with the `no_night` and
Friday overrides applied, and is never Off. -/
theorem claim1_rest_rotation (emps : List Employee) (y m : Nat)
    (l : List DailyAssignment) (hl : generate_schedule emps y m = .ok l)
    (i idx : Nat) (hi : i < daysInMonthPy y m) (hidx : idx < emps.length) :
    ((i + idx) % 7 = 6 → (l.getD (i * emps.length + idx) noAssign).shift = Shift.OFF) ∧
    ((i + idx) % 7 ≠ 6 →
      (l.getD (i * emps.length + idx) noAssign).shift =
        applyOverrides (emps.getD idx defaultEmployee) (weekdayOf (toOrdinal y m 1 + i))
          (rotationTable.getD ((i + idx) % 3) Shift.D) ∧
      (l.getD (i * emps.length + idx) noAssign).shift ≠ Shift.OFF) := by
  rw [generate_schedule_getD emps y m l hl i idx hi hidx]
  dsimp only
  simp only [assignShift]
  constructor
  · intro h
    rw [if_pos h]
  · intro h
    rw [if_neg h]
    exact ⟨rfl, applyOverrides_ne_off _ _ _ (rotationTable_getD_mod_ne_off _)⟩

/-- C2: for every year ≥ 1 and month 1..12, the day count computed by
`generate_schedule`'s date arithmetic equals the calendar-correct month length:
one of 28/29/30/31, and 29 for February exactly in leap years. -/
theorem claim2_day_count (y m : Nat) (hy : 1 ≤ y) (hm1 : 1 ≤ m) (hm2 : m ≤ 12) :
    daysInMonthPy y m = monthLenSpec y m ∧
    (daysInMonthPy y m = 28 ∨ daysInMonthPy y m = 29 ∨ daysInMonthPy y m = 30 ∨
      daysInMonthPy y m = 31) ∧
    (m = 2 → (daysInMonthPy y m = 29 ↔ isLeap y = true)) := by
  have h := daysInMonthPy_eq_spec y m hy hm1 hm2
  refine ⟨h, ?_, ?_⟩
  · rw [h]
    simp only [monthLenSpec]
    split_ifs <;> omega
  · intro hm
    subst hm
    rw [h]
    simp only [monthLenSpec, if_pos rfl]
    cases hL : isLeap y <;> simp [hL]

/-- C3: an employee whose hard rules set `no_night` is never assigned Night. -/
theorem claim3_no_night (emps : List Employee) (y m : Nat) (l : List DailyAssignment)
    (hl : generate_schedule emps y m = .ok l) (i idx : Nat)
    (hi : i < daysInMonthPy y m) (hidx : idx < emps.length)
    (hr : getRule (emps.getD idx defaultEmployee).hard_rules "no_night" = true) :
    (l.getD (i * emps.length + idx) noAssign).shift ≠ Shift.N := by
  rw [generate_schedule_getD emps y m l hl i idx hi hidx]
  dsimp only
  simp only [assignShift]
  split
  · decide
  · exact applyOverrides_ne_night _ _ _ hr

/-- C4: an employee whose hard rules set `no_after_16_friday` is never assigned
Evening or Night on a date whose weekday is Friday. -/
theorem claim4_friday_rule (emps : List Employee) (y m : Nat) (l : List DailyAssignment)
    (hl : generate_schedule emps y m = .ok l) (i idx : Nat)
    (hi : i < daysInMonthPy y m) (hidx : idx < emps.length)
    (hr : getRule (emps.getD idx defaultEmployee).hard_rules "no_after_16_friday" = true)
    (hf : weekdayOf (toOrdinal y m 1 + i) = 4) :
    (l.getD (i * emps.length + idx) noAssign).shift ≠ Shift.E ∧
    (l.getD (i * emps.length + idx) noAssign).shift ≠ Shift.N := by
  rw [generate_schedule_getD emps y m l hl i idx hi hidx]
  dsimp only
  simp only [assignShift]
  split
  · exact ⟨by decide, by decide⟩
  · exact applyOverrides_friday _ _ _ hr hf

/-- C5: with no employees the endpoint fails with (400, "No employees in
department") and leaves the store unchanged; with employees the full assignment
list is both returned and appended to the store as a new schedule record. -/
theorem claim5_error_and_persistence (store : List ScheduleDoc) (now : Nat)
    (dept : String) (emps : List Employee) (y m : Nat) :
    (emps = [] → generate_endpoint store now dept emps y m =
      (store, .error (400, "No employees in department"))) ∧
    (emps ≠ [] → ∃ l, generate_schedule emps y m = .ok l ∧
      generate_endpoint store now dept emps y m =
        (store ++ [⟨dept, y, m, l, now⟩], .ok l)) := by
  constructor
  · rintro rfl
    rfl
  · intro hne
    obtain ⟨l, hl⟩ : ∃ l, generate_schedule emps y m = .ok l := by
      unfold generate_schedule
      rw [if_neg]
      · exact ⟨_, rfl⟩
      · simpa [List.isEmpty_iff] using hne
    refine ⟨l, hl, ?_⟩
    unfold generate_endpoint
    rw [hl]

/-- C6: the rotation computation is a pure function of the employee list, year
and month: two runs with identical inputs give identical outputs, and the
result does not depend on the ambient store contents, the wall-clock time, or
the department identifier. -/
theorem claim6_deterministic (emps : List Employee) (y m : Nat)
    (store store2 : List ScheduleDoc) (now now2 : Nat) (dept dept2 : String) :
    generate_schedule emps y m = generate_schedule emps y m ∧
    (generate_endpoint store now dept emps y m).2 =
      (generate_endpoint store2 now2 dept2 emps y m).2 := by
  refine ⟨rfl, ?_⟩
  unfold generate_endpoint
  cases generate_schedule emps y m <;> rfl

/-- Agreement on exactly the employee fields the rotation reads: identity and
hard rules; `absences`, `soft_preferences` and `contract_percentage` are free. -/
def agreesOnScheduling (e1 e2 : Employee) : Prop :=
  e1.id = e2.id ∧ e1.hard_rules = e2.hard_rules

theorem assignShift_congr (e1 e2 : Employee) (w dOff idx : Nat)
    (h : e1.hard_rules = e2.hard_rules) :
    assignShift e1 w dOff idx = assignShift e2 w dOff idx := by
  simp only [assignShift, applyOverrides, h]

theorem enumFrom_map_agrees (dOrd w dOff : Nat) (l1 l2 : List Employee)
    (h : List.Forall₂ agreesOnScheduling l1 l2) (k : Nat) :
    (List.enumFrom k l1).map (fun p =>
      ({ dateOrd := dOrd
         employee_id := p.2.id
         shift := assignShift p.2 w dOff p.1 } : DailyAssignment)) =
    (List.enumFrom k l2).map (fun p =>
      ({ dateOrd := dOrd
         employee_id := p.2.id
         shift := assignShift p.2 w dOff p.1 } : DailyAssignment)) := by
  induction h generalizing k with
  | nil => rfl
  | cons ha ht ih =>
    simp only [List.enumFrom_cons, List.map_cons]
    rw [ih (k + 1)]
    congr 1
    dsimp only
    rw [ha.1, assignShift_congr _ _ _ _ _ ha.2]

/-- C7: employee lists agreeing on order, identifiers and hard rules produce
identical schedules, whatever their `absences`, `soft_preferences` and
`contract_percentage` — those fields never influence the output. -/
theorem claim7_noninterference (emps1 emps2 : List Employee) (y m : Nat)
    (h : List.Forall₂ agreesOnScheduling emps1 emps2) :
    generate_schedule emps1 y m = generate_schedule emps2 y m := by
  simp only [generate_schedule]
  have hempty : emps1.isEmpty = emps2.isEmpty := by
    cases h <;> rfl
  rw [hempty]
  split
  · rfl
  · congr 1
    refine congrArg _ (funext fun i => ?_)
    exact enumFrom_map_agrees (toOrdinal y m 1 + i) (weekdayOf (toOrdinal y m 1 + i)) i
      emps1 emps2 h 0

/-- C8: the algorithm does not prevent a date on which every employee is Off,
nor a date on which every employee is Day: both happen on concrete inputs. -/
theorem claim8_all_off_all_day :
    (∃ (emps : List Employee) (y m i : Nat) (l : List DailyAssignment),
      emps ≠ [] ∧ 1 ≤ y ∧ 1 ≤ m ∧ m ≤ 12 ∧ i < daysInMonthPy y m ∧
      generate_schedule emps y m = .ok l ∧
      ∀ idx < emps.length, (l.getD (i * emps.length + idx) noAssign).shift = Shift.OFF) ∧
    (∃ (emps : List Employee) (y m i : Nat) (l : List DailyAssignment),
      emps ≠ [] ∧ 1 ≤ y ∧ 1 ≤ m ∧ m ≤ 12 ∧ i < daysInMonthPy y m ∧
      generate_schedule emps y m = .ok l ∧
      ∀ idx < emps.length, (l.getD (i * emps.length + idx) noAssign).shift = Shift.D) := by
  constructor
  · exact ⟨[empA], 2023, 5, 6, demoList1, by decide, by decide, by decide, by decide,
      by decide, rfl, by decide⟩
  · exact ⟨[empA, empFri], 2024, 3, 0, demoList5, by decide, by decide, by decide, by decide,
      by decide, rfl, by decide⟩

/-- C10: the output has exactly `days * employees` entries, the entry at
position `i * employees + idx` carries the date of day offset `i` and the
identifier of the employee at position `idx` — dates ascending outermost,
employee list order innermost, each (date, employee) pair exactly once. -/
theorem claim10_shape (emps : List Employee) (y m : Nat) (l : List DailyAssignment)
    (hl : generate_schedule emps y m = .ok l) :
    l.length = daysInMonthPy y m * emps.length ∧
    ∀ i idx, i < daysInMonthPy y m → idx < emps.length →
      (l.getD (i * emps.length + idx) noAssign).dateOrd = toOrdinal y m 1 + i ∧
      (l.getD (i * emps.length + idx) noAssign).employee_id =
        (emps.getD idx defaultEmployee).id := by
  refine ⟨generate_schedule_length emps y m l hl, ?_⟩
  intro i idx hi hidx
  rw [generate_schedule_getD emps y m l hl i idx hi hidx]
  exact ⟨rfl, rfl⟩

/-- C9: the keyword matcher lower-cases the text and matches a fixed substring
table: `no_night` is set (to true) exactly when the text contains "never
night", "avoid night" or "ikke natt"; `no_after_16_friday` exactly for "cannot
work after 16" or "ikke etter 16"; `prefer_day` is set to 1.0 exactly for
"prefer day", "day shifts" or "dagvakt"; `prefer_evening` to 1.0 exactly for
"prefer evening" or "kveld"; and no other keys are ever set. -/
theorem claim9_keyword_table (text : String) :
    ((interpret_preferences text).hard_rules.lookup "no_night" = some true ↔
      (strContains text.toLower "never night" || strContains text.toLower "avoid night" ||
        strContains text.toLower "ikke natt") = true) ∧
    ((interpret_preferences text).hard_rules.lookup "no_after_16_friday" = some true ↔
      (strContains text.toLower "cannot work after 16" ||
        strContains text.toLower "ikke etter 16") = true) ∧
    ((interpret_preferences text).soft_preferences.lookup "prefer_day" = some 1 ↔
      (strContains text.toLower "prefer day" || strContains text.toLower "day shifts" ||
        strContains text.toLower "dagvakt") = true) ∧
    ((interpret_preferences text).soft_preferences.lookup "prefer_evening" = some 1 ↔
      (strContains text.toLower "prefer evening" || strContains text.toLower "kveld") = true) ∧
    (∀ k b, (k, b) ∈ (interpret_preferences text).hard_rules →
      (k = "no_night" ∨ k = "no_after_16_friday") ∧ b = true) ∧
    (∀ k v, (k, v) ∈ (interpret_preferences text).soft_preferences →
      (k = "prefer_day" ∨ k = "prefer_evening") ∧ v = 1) := by
  simp only [interpret_preferences]
  split_ifs with h1 h2 h3 h4 <;>
    simp_all [List.lookup, List.mem_cons, List.mem_singleton] <;>
    tauto

/-! ## Witness instantiations -/

/-- Witness for C1 at one employee, May 2023, day offset 6 (a rest day). -/
theorem claim1_witness :
    ((6 + 0) % 7 = 6 → ((demoList1).getD (6 * 1 + 0) noAssign).shift = Shift.OFF) ∧
    ((6 + 0) % 7 ≠ 6 →
      ((demoList1).getD (6 * 1 + 0) noAssign).shift =
        applyOverrides (List.getD [empA] 0 defaultEmployee) (weekdayOf (toOrdinal 2023 5 1 + 6))
          (rotationTable.getD ((6 + 0) % 3) Shift.D) ∧
      ((demoList1).getD (6 * 1 + 0) noAssign).shift ≠ Shift.OFF) :=
  claim1_rest_rotation [empA] 2023 5 demoList1 rfl 6 0 (by decide) (by decide)

/-- Witness for C2 at February 2024 (a leap year). -/
theorem claim2_witness :
    daysInMonthPy 2024 2 = monthLenSpec 2024 2 ∧
    (daysInMonthPy 2024 2 = 28 ∨ daysInMonthPy 2024 2 = 29 ∨ daysInMonthPy 2024 2 = 30 ∨
      daysInMonthPy 2024 2 = 31) ∧
    (2 = 2 → (daysInMonthPy 2024 2 = 29 ↔ isLeap 2024 = true)) :=
  claim2_day_count 2024 2 (by decide) (by decide) (by decide)

/-- Witness for C3: a `no_night` employee on a day whose base rotation is Night. -/
theorem claim3_witness :
    ((demoList3).getD (2 * 1 + 0) noAssign).shift ≠ Shift.N :=
  claim3_no_night [empNN] 2024 2 demoList3 rfl 2 0 (by decide) (by decide) (by decide)

/-- Witness for C4: a `no_after_16_friday` employee on Friday 2024-03-01. -/
theorem claim4_witness :
    ((demoList4).getD (0 * 1 + 0) noAssign).shift ≠ Shift.E ∧
    ((demoList4).getD (0 * 1 + 0) noAssign).shift ≠ Shift.N :=
  claim4_friday_rule [empFri] 2024 3 demoList4 rfl 0 0 (by decide) (by decide) (by decide)
    (by decide)

/-- Witness for C5: the empty department errors without writing; one employee
generates, returns and persists the same list. -/
theorem claim5_witness :
    generate_endpoint [] 7 "dep" [] 2024 1 =
      ([], .error (400, "No employees in department")) ∧
    (∃ l, generate_schedule [empA] 2024 1 = .ok l ∧
      generate_endpoint [] 7 "dep" [empA] 2024 1 =
        ([] ++ [⟨"dep", 2024, 1, l, 7⟩], .ok l)) :=
  ⟨(claim5_error_and_persistence [] 7 "dep" [] 2024 1).1 rfl,
   (claim5_error_and_persistence [] 7 "dep" [empA] 2024 1).2 (by simp)⟩

/-- Witness for C7: two employees equal except in soft preferences, absences
and contract percentage generate the same schedule. -/
theorem claim7_witness :
    generate_schedule [empA] 2024 1 = generate_schedule [empA2] 2024 1 :=
  claim7_noninterference [empA] [empA2] 2024 1
    (List.Forall₂.cons ⟨rfl, rfl⟩ List.Forall₂.nil)

/-- Witness for C10 at one employee over February 2024. -/
theorem claim10_witness :
    demoList3.length = daysInMonthPy 2024 2 * 1 ∧
    ∀ i idx, i < daysInMonthPy 2024 2 → idx < 1 →
      ((demoList3).getD (i * 1 + idx) noAssign).dateOrd = toOrdinal 2024 2 1 + i ∧
      ((demoList3).getD (i * 1 + idx) noAssign).employee_id =
        (List.getD [empNN] idx defaultEmployee).id :=
  claim10_shape [empNN] 2024 2 demoList3 rfl
